import Mathlib

/-!
ApplicationSet controller: cluster generator, reconciler and e2e expectations.

A shallow embedding of

* `pkg/generators/cluster.go` (`ClusterGenerator.GenerateParams`),
* `pkg/controllers/applicationset_controller.go` (`ApplicationSetReconciler.Reconcile`),
* `test/e2e/fixture/applicationsets/expectation.go`
  (`filterFields`, `appsAreEqual`, `getDiff`, `ApplicationsExist`),

followed by the properties established about them.

Conventions of the embedding.

* A Go `map[string]string` is an association list read and written through `GoMap.get` and
  `GoMap.set`; a `range` loop over it visits the entries in the order of the list, so a statement
  quantified over all lists covers every iteration order Go may choose.  Where Go observes the
  difference between a nil and an empty map or slice (`reflect.DeepEqual`, a nil result), the
  value is wrapped in `Option` and `none` is nil.
* A Go `error` is a value of `GoError`; a nil error is `none`.
* Calls to collaborators that live outside the three files (the cluster store, the API server
  `Get`, the List and Git generators, the merge-patch library, the fixture's lookup of a live
  Application) are parameters of the embedded functions.  Calls whose occurrence matters are
  recorded in an explicit trace returned next to the Go results.
-/

set_option autoImplicit false

/-! ## Go maps and errors -/

/-- A Go `map[string]string` as an association list. -/
abbrev GoMap := List (String × String)

namespace GoMap

/-- The read `m[k]` with the comma-ok result: `none` when the key is absent. -/
def get : GoMap → String → Option String
  | [], _ => none
  | (k', v) :: t, k => if k' = k then some v else get t k

/-- The assignment `m[k] = v`: replaces the entry of `k` when present, adds one otherwise. -/
def set : GoMap → String → String → GoMap
  | [], k, v => [(k, v)]
  | (k', v') :: t, k, v => if k' = k then (k, v) :: t else (k', v') :: set t k v

/-- The keys of the map, in iteration order. -/
def keys (m : GoMap) : List String := m.map Prod.fst

/-- A well-formed Go map holds each key once. -/
def WF (m : GoMap) : Prop := m.keys.Nodup

instance (m : GoMap) : Decidable m.WF := by unfold WF; infer_instance

end GoMap

/-- Go `error` values met by the embedded code: the generators package's
`EmptyAppSetGeneratorError`, an API-server error that `apierrors.IsNotFound` recognises, and any
other error, identified by its text. -/
inductive GoError where
  | EmptyAppSetGeneratorError
  | NotFound (msg : String)
  | Other (msg : String)
  deriving DecidableEq, Repr

/-! ## API types (`api/v1alpha1`, `metav1`, `corev1`) -/

/-- The `metav1.LabelSelectorRequirement` of a selector (not read by the embedded code). -/
structure LabelSelectorRequirement where
  Key : String
  Operator : String
  Values : List String
  deriving DecidableEq, Repr

/-- The `metav1.LabelSelector`. -/
structure LabelSelector where
  MatchLabels : GoMap
  MatchExpressions : List LabelSelectorRequirement
  deriving DecidableEq, Repr

/-- The `ClusterGenerator` kind of a generator spec: a label selector over cluster secrets. -/
structure ClusterGeneratorSpec where
  Selector : LabelSelector
  deriving DecidableEq, Repr

/-- Modelled from the spec: the `ListGenerator` kind of a generator spec (declared in
`api/v1alpha1`), "a static item list". -/
structure ListGeneratorSpec where
  Elements : List GoMap
  deriving DecidableEq, Repr

/-- Modelled from the spec: the `GitGenerator` kind of a generator spec (declared in
`api/v1alpha1`), "a repository/path pattern". -/
structure GitGeneratorSpec where
  RepoURL : String
  Revision : String
  Directories : List String
  deriving DecidableEq, Repr

/-- The `ApplicationSetGenerator`: one nullable field per generator kind. -/
structure ApplicationSetGenerator where
  List : Option ListGeneratorSpec
  Clusters : Option ClusterGeneratorSpec
  Git : Option GitGeneratorSpec
  deriving DecidableEq, Repr

/-- The part of a `corev1.Secret` the cluster generator reads: its name, its labels and its data.
A `[]byte` value of `Data` is modelled by the string holding the same bytes, so that the
conversion `string(b)` is `b` itself. -/
structure Secret where
  Name : String
  Labels : GoMap
  Data : GoMap
  deriving DecidableEq, Repr

/-! ## `pkg/generators/cluster.go` -/

namespace generators

def ArgoCDSecretTypeLabel : String := "argocd.argoproj.io/secret-type"

def ArgoCDSecretTypeCluster : String := "cluster"

/-- The conversion `string(m[k])` of a `map[string][]byte` entry: an absent key reads as the nil
slice, whose string is empty. -/
def dataString (m : GoMap) (k : String) : String := (GoMap.get m k).getD ""

/-- The label set built at lines 48-53: the discriminator entry first, then one assignment per
`MatchLabels` entry. -/
def secretLabels (c : ClusterGeneratorSpec) : GoMap :=
  c.Selector.MatchLabels.foldl (fun m kv => GoMap.set m kv.1 kv.2)
    [(ArgoCDSecretTypeLabel, ArgoCDSecretTypeCluster)]

/-- The body of the loop at lines 61-66: the parameter mapping of one cluster secret. -/
def clusterParams (cluster : Secret) : GoMap :=
  cluster.Labels.foldl (fun params kv => GoMap.set params ("metadata.labels." ++ kv.1) kv.2)
    (GoMap.set (GoMap.set [] "name" cluster.Name) "server" (dataString cluster.Data "server"))

/-- What a call of `GenerateParams` yields: the two Go results and the label sets passed to the
store's `List`, in call order. -/
structure GenerateParamsResult where
  params : Option (List GoMap)
  err : Option GoError
  listCalls : List GoMap
  deriving DecidableEq, Repr

/-- The method `(*ClusterGenerator).GenerateParams`.  `list` is `g.Client.List` restricted to what
the method uses: from the matching labels to the items of the secret list, or an error.  A nil
`appSetGenerator` is `none`. -/
def GenerateParams (list : GoMap → Except GoError (List Secret))
    (appSetGenerator : Option ApplicationSetGenerator) : GenerateParamsResult :=
  match appSetGenerator with
  | none => ⟨none, some GoError.EmptyAppSetGeneratorError, []⟩
  | some g =>
    match g.Clusters with
    | none => ⟨none, none, []⟩
    | some c =>
      let labels := secretLabels c
      match list labels with
      | Except.error err => ⟨none, some err, [labels]⟩
      | Except.ok items => ⟨some (items.map clusterParams), none, [labels]⟩

/-- Modelled from the spec: a cluster-registry store holding `records`, whose `List` never fails
and returns, in stored order, exactly the records that carry every queried label. -/
def labelStore (records : List Secret) (query : GoMap) : Except GoError (List Secret) :=
  Except.ok (records.filter fun r => query.all fun kv => GoMap.get r.Labels kv.1 == some kv.2)

end generators

/-! ## The Application type (`argo-cd/pkg/apis/application/v1alpha1`)

The fields that `filterFields` copies are all present; the fields it drops are represented by the
ones below.  Every field has the Go zero value as its default, so that a structure instance that
names some fields leaves the others zero, as a Go composite literal does. -/

/-- The `metav1.TypeMeta`. -/
structure TypeMeta where
  Kind : String := ""
  APIVersion : String := ""
  deriving DecidableEq, Repr

/-- The `metav1.ObjectMeta`. -/
structure ObjectMeta where
  Name : String := ""
  GenerateName : String := ""
  Namespace : String := ""
  SelfLink : String := ""
  UID : String := ""
  ResourceVersion : String := ""
  Generation : Int := 0
  CreationTimestamp : Nat := 0
  DeletionTimestamp : Option Nat := none
  Labels : Option GoMap := none
  Annotations : Option GoMap := none
  OwnerReferences : Option (List String) := none
  Finalizers : Option (List String) := none
  ClusterName : String := ""
  deriving DecidableEq, Repr

/-- The `ApplicationSource`. -/
structure ApplicationSource where
  RepoURL : String := ""
  Path : String := ""
  TargetRevision : String := ""
  Chart : String := ""
  deriving DecidableEq, Repr

/-- The `ApplicationDestination`. -/
structure ApplicationDestination where
  Server : String := ""
  Namespace : String := ""
  Name : String := ""
  deriving DecidableEq, Repr

/-- The `SyncPolicy` (its automated part). -/
structure SyncPolicy where
  Prune : Bool := false
  SelfHeal : Bool := false
  deriving DecidableEq, Repr

/-- The `ApplicationSpec`. -/
structure ApplicationSpec where
  Source : ApplicationSource := {}
  Destination : ApplicationDestination := {}
  Project : String := ""
  SyncPolicy : Option SyncPolicy := none
  RevisionHistoryLimit : Option Int := none
  deriving DecidableEq, Repr

/-- The `ApplicationStatus`. -/
structure ApplicationStatus where
  Sync : String := ""
  Health : String := ""
  ReconciledAt : Option Nat := none
  ObservedAt : Option Nat := none
  deriving DecidableEq, Repr

/-- The `Application`. -/
structure Application where
  TypeMeta : TypeMeta := {}
  ObjectMeta : ObjectMeta := {}
  Spec : ApplicationSpec := {}
  Status : ApplicationStatus := {}
  Operation : Option String := none
  deriving DecidableEq, Repr

/-! ## `reflect.DeepEqual` -/

namespace reflect

/-- `DeepEqual` on two `map[string]string`: both nil or both non-nil, of the same length, and
every key of the first read in both maps gives a value in each, the two values equal. -/
def deepEqualMap : Option GoMap → Option GoMap → Bool
  | none, none => true
  | some m1, some m2 =>
    m1.length == m2.length &&
      m1.keys.all fun k =>
        match GoMap.get m1 k, GoMap.get m2 k with
        | some v1, some v2 => v1 == v2
        | _, _ => false
  | _, _ => false

/-- `DeepEqual` on two `[]string`: both nil or both non-nil, of the same length, equal element by
element. -/
def deepEqualSlice : Option (List String) → Option (List String) → Bool
  | none, none => true
  | some s1, some s2 => s1 == s2
  | _, _ => false

/-- `DeepEqual` on two `metav1.ObjectMeta`, field by field. -/
def deepEqualObjectMeta (a b : ObjectMeta) : Bool :=
  a.Name == b.Name && a.GenerateName == b.GenerateName && a.Namespace == b.Namespace &&
  a.SelfLink == b.SelfLink && a.UID == b.UID && a.ResourceVersion == b.ResourceVersion &&
  a.Generation == b.Generation && a.CreationTimestamp == b.CreationTimestamp &&
  a.DeletionTimestamp == b.DeletionTimestamp &&
  deepEqualMap a.Labels b.Labels && deepEqualMap a.Annotations b.Annotations &&
  deepEqualSlice a.OwnerReferences b.OwnerReferences &&
  deepEqualSlice a.Finalizers b.Finalizers && a.ClusterName == b.ClusterName

/-- `DeepEqual` on two `ApplicationSpec`, field by field. -/
def deepEqualSpec (a b : ApplicationSpec) : Bool :=
  a.Source.RepoURL == b.Source.RepoURL && a.Source.Path == b.Source.Path &&
  a.Source.TargetRevision == b.Source.TargetRevision && a.Source.Chart == b.Source.Chart &&
  a.Destination.Server == b.Destination.Server &&
  a.Destination.Namespace == b.Destination.Namespace &&
  a.Destination.Name == b.Destination.Name &&
  a.Project == b.Project && a.SyncPolicy == b.SyncPolicy &&
  a.RevisionHistoryLimit == b.RevisionHistoryLimit

/-- `DeepEqual` on two `Application`, field by field. -/
def DeepEqual (a b : Application) : Bool :=
  a.TypeMeta == b.TypeMeta && deepEqualObjectMeta a.ObjectMeta b.ObjectMeta &&
  deepEqualSpec a.Spec b.Spec && a.Status == b.Status && a.Operation == b.Operation

end reflect

/-! ## `test/e2e/fixture/applicationsets/expectation.go` -/

namespace applicationsets

/-- The type `state`, a string. -/
abbrev state := String

def failed : state := "failed"

def pending : state := "pending"

def succeeded : state := "succeeded"

/-- The function `filterFields`.  `ObjectMeta.DeepCopy` yields a value with the same contents,
nil maps and slices staying nil. -/
def filterFields (input : Application) : Application :=
  let spec := input.Spec
  let metaCopy := input.ObjectMeta
  { ObjectMeta :=
      { Labels := metaCopy.Labels
        Annotations := metaCopy.Annotations
        Name := metaCopy.Name
        Namespace := metaCopy.Namespace
        Finalizers := metaCopy.Finalizers }
    Spec :=
      { Source :=
          { Path := spec.Source.Path
            RepoURL := spec.Source.RepoURL
            TargetRevision := spec.Source.TargetRevision }
        Destination :=
          { Server := spec.Destination.Server
            Name := spec.Destination.Name
            Namespace := spec.Destination.Namespace }
        Project := spec.Project } }

/-- The function `appsAreEqual`. -/
def appsAreEqual (one two : Application) : Bool :=
  reflect.DeepEqual (filterFields one) (filterFields two)

/-- The type of `diff.CreateTwoWayMergePatch` of the gitops-engine: from `orig`, `new` and the
data struct to the patch bytes and the modified flag, or an error.  An error of the library is
identified by its `Error()` text. -/
abbrev MergePatch := Application → Application → Application → Except String (String × Bool)

/-- The function `getDiff`: the patch as a string and a nil error, or the empty string and the
library's error. -/
def getDiff (createTwoWayMergePatch : MergePatch) (orig new : Application) :
    String × Option String :=
  match createTwoWayMergePatch orig new orig with
  | Except.error err => ("", some err)
  | Except.ok (bytes, _) => (bytes, none)

/-- The message of `fmt.Sprintf` with the format `missing app` and the quoted name. -/
def missingAppMessage (name : String) : String := "missing app \x27" ++ name ++ "\x27"

/-- The message of `fmt.Sprintf` with the format `apps are not equal:`, the quoted name, `diff:`
and the diff, ended by a newline. -/
def notEqualMessage (name diff : String) : String :=
  "apps are not equal: \x27" ++ name ++ "\x27, diff: " ++ diff ++ "\n"

/-- The expectation returned by `ApplicationsExist expectedApps`, applied to the consequences
`c`.  Of `c` the expectation uses the lookup `c.app` alone, which is the parameter `app`: the
live Application of a given name, `none` when the lookup returns nil. -/
def ApplicationsExist (createTwoWayMergePatch : MergePatch) :
    List Application → (String → Option Application) → state × String
  | [], _ => (succeeded, "all apps successfully found")
  | expectedApp :: rest, app =>
    match app expectedApp.ObjectMeta.Name with
    | none => (pending, missingAppMessage expectedApp.ObjectMeta.Name)
    | some foundApp =>
      if !appsAreEqual expectedApp foundApp then
        match getDiff createTwoWayMergePatch (filterFields expectedApp) (filterFields foundApp) with
        | (_, some err) => (failed, err)
        | (diff, none) => (pending, notEqualMessage expectedApp.ObjectMeta.Name diff)
      else
        ApplicationsExist createTwoWayMergePatch rest app

/-- An expected Application is satisfied by the live state when a live Application of its name is
found and `appsAreEqual` holds of the two. -/
def satisfied (app : String → Option Application) (expectedApp : Application) : Bool :=
  match app expectedApp.ObjectMeta.Name with
  | none => false
  | some foundApp => appsAreEqual expectedApp foundApp

end applicationsets

/-! ## `pkg/controllers/applicationset_controller.go` -/

/-- The `types.NamespacedName`. -/
structure NamespacedName where
  Namespace : String
  Name : String
  deriving DecidableEq, Repr

/-- The `ApplicationSetSpec`: the generator specs, in order, and the template. -/
structure ApplicationSetSpec where
  Generators : List ApplicationSetGenerator
  Template : ApplicationSpec
  deriving DecidableEq, Repr

/-- The `ApplicationSet`. -/
structure ApplicationSet where
  ObjectMeta : ObjectMeta
  Spec : ApplicationSetSpec
  deriving DecidableEq, Repr

namespace controllers

/-- The `ctrl.Request`. -/
structure Request where
  NamespacedName : NamespacedName
  deriving DecidableEq, Repr

/-- The `ctrl.Result`: the empty result `ctrl.Result{}` asks for no retry. -/
structure Result where
  Requeue : Bool := false
  RequeueAfter : Nat := 0
  deriving DecidableEq, Repr

/-- The generator kinds the reconciler constructs a generator for. -/
inductive GeneratorKind where
  | List
  | Git
  deriving DecidableEq, Repr

/-- What a reconcile pass does besides returning: the generator calls and the log records, each
generator event carrying the position of the spec element in `Spec.Generators`. -/
inductive Event where
  | GenerateApplications (kind : GeneratorKind) (index : Nat)
  | LogFetchError (err : GoError)
  | LogGenerateError (index : Nat) (err : GoError)
  | LogDesiredApplications (index : Nat) (desiredApplications : List Application)
  deriving DecidableEq, Repr

/-- A `GenerateApplications` method of a generator outside the file, as the reconciler sees it:
from the position of the call in the pass, the spec element and the ApplicationSet to the
Applications and the error.  The position lets two calls on equal arguments differ. -/
abbrev GenerateApplications :=
  Nat → ApplicationSetGenerator → ApplicationSet → List Application × Option GoError

/-- The function `client.IgnoreNotFound`: nil for a not-found error, the error otherwise. -/
def IgnoreNotFound : GoError → Option GoError
  | GoError.NotFound _ => none
  | err => some err

/-- Lines 58-66 for one spec element: the declarations of `desiredApplications` and `err`, then
the two independent `if`s, each assigning both variables.  Returns the two variables and the
generator calls made. -/
def dispatch (ListGenerator GitGenerator : GenerateApplications) (applicationSetInfo : ApplicationSet)
    (index : Nat) (tmpGenerator : ApplicationSetGenerator) :
    (List Application × Option GoError) × List Event :=
  let afterList : (List Application × Option GoError) × List Event :=
    match tmpGenerator.List with
    | some _ =>
      (ListGenerator index tmpGenerator applicationSetInfo,
        [Event.GenerateApplications GeneratorKind.List index])
    | none => (([], none), [])
  match tmpGenerator.Git with
  | some _ =>
    (GitGenerator index tmpGenerator applicationSetInfo,
      afterList.2 ++ [Event.GenerateApplications GeneratorKind.Git index])
  | none => afterList

/-- One iteration of the loop (lines 57-75): dispatch, then either the error record and
`continue` (lines 68-71), or the record of the desired Applications (line 73). -/
def iteration (ListGenerator GitGenerator : GenerateApplications) (applicationSetInfo : ApplicationSet)
    (index : Nat) (tmpGenerator : ApplicationSetGenerator) : List Event :=
  let d := dispatch ListGenerator GitGenerator applicationSetInfo index tmpGenerator
  match d.1.2 with
  | some err => d.2 ++ [Event.LogGenerateError index err]
  | none => d.2 ++ [Event.LogDesiredApplications index d.1.1]

/-- The loop over `applicationSetInfo.Spec.Generators`, from position `index` on. -/
def loop (ListGenerator GitGenerator : GenerateApplications) (applicationSetInfo : ApplicationSet) :
    Nat → List ApplicationSetGenerator → List Event
  | _, [] => []
  | index, tmpGenerator :: rest =>
    iteration ListGenerator GitGenerator applicationSetInfo index tmpGenerator ++
      loop ListGenerator GitGenerator applicationSetInfo (index + 1) rest

/-- What a call of `Reconcile` yields: the two Go results and the events of the pass. -/
structure ReconcileResult where
  result : Result
  err : Option GoError
  events : List Event
  deriving DecidableEq, Repr

/-- The method `(*ApplicationSetReconciler).Reconcile`.  `get` is `r.Get` for ApplicationSets:
the fetched object or the error.  `ListGenerator` and `GitGenerator` are the generators the method
constructs. -/
def Reconcile (get : NamespacedName → Except GoError ApplicationSet)
    (ListGenerator GitGenerator : GenerateApplications) (req : Request) : ReconcileResult :=
  match get req.NamespacedName with
  | Except.error err => ⟨{}, IgnoreNotFound err, [Event.LogFetchError err]⟩
  | Except.ok applicationSetInfo =>
    ⟨{}, none, loop ListGenerator GitGenerator applicationSetInfo 0 applicationSetInfo.Spec.Generators⟩

/-- The generator calls among the events, in order. -/
def invocations (events : List Event) : List (GeneratorKind × Nat) :=
  events.filterMap fun e =>
    match e with
    | Event.GenerateApplications kind index => some (kind, index)
    | _ => none

/-- The generator calls made for the spec element at position `index`, in order. -/
def invocationsAt (events : List Event) (index : Nat) : List GeneratorKind :=
  ((invocations events).filter fun ki => ki.2 == index).map Prod.fst

/-- The generator errors recorded among the events, in order. -/
def recordedErrors (events : List Event) : List (Nat × GoError) :=
  events.filterMap fun e =>
    match e with
    | Event.LogGenerateError index err => some (index, err)
    | _ => none

end controllers

/-! ## Sample data -/

namespace generators

/-- A registered cluster labelled `env=prod`, with a label whose key is `name`. -/
def prodEast : Secret :=
  ⟨"east", [(ArgoCDSecretTypeLabel, ArgoCDSecretTypeCluster), ("env", "prod"), ("name", "e1")],
    [("server", "https://east.example.com")]⟩

/-- A registered cluster labelled `env=prod`, with a label whose key is `server` and no `server`
data entry. -/
def prodWest : Secret :=
  ⟨"west", [(ArgoCDSecretTypeLabel, ArgoCDSecretTypeCluster), ("env", "prod"), ("server", "w2")],
    []⟩

/-- A registered cluster labelled `env=staging`. -/
def stagingOne : Secret :=
  ⟨"stage", [(ArgoCDSecretTypeLabel, ArgoCDSecretTypeCluster), ("env", "staging")],
    [("server", "https://stage.example.com")]⟩

/-- A secret that is not a cluster registration: its discriminator label says `repository`. -/
def repoCreds : Secret :=
  ⟨"repo-creds", [(ArgoCDSecretTypeLabel, "repository")], [("url", "https://git.example.com")]⟩

/-- The Clusters kind selecting `env=prod`. -/
def prodSelector : ClusterGeneratorSpec := ⟨⟨[("env", "prod")], []⟩⟩

/-- A generator spec whose Clusters kind selects `env=prod`. -/
def selectProd : ApplicationSetGenerator := ⟨none, some prodSelector, none⟩

/-- A generator spec whose Clusters selector names the discriminator label itself. -/
def selectRepository : ApplicationSetGenerator :=
  ⟨none, some ⟨⟨[(ArgoCDSecretTypeLabel, "repository")], []⟩⟩, none⟩

/-- A generator spec with the List kind populated and the Clusters kind not. -/
def listOnly : ApplicationSetGenerator := ⟨some ⟨[[("cluster", "east")]]⟩, none, none⟩

end generators

namespace applicationsets

/-- A message names an Application when the Application's name occurs in it. -/
def mentions (message name : String) : Prop := name.data <:+: message.data

instance (message name : String) : Decidable (mentions message name) := by
  unfold mentions; infer_instance

/-- A live state holding `apps`: the lookup by name returns the first Application of that
name. -/
def liveApps (apps : List Application) (name : String) : Option Application :=
  apps.find? fun a => a.ObjectMeta.Name == name

/-- A merge-patch library call that succeeds with an empty patch. -/
def emptyPatch : MergePatch := fun _ _ _ => Except.ok ("\x7b\x7d", false)

/-- An expected Application. -/
def guestbook : Application :=
  { ObjectMeta := { Name := "guestbook", Namespace := "argocd" }
    Spec :=
      { Source := { RepoURL := "https://git.example.com/apps", Path := "guestbook" }
        Destination := { Server := "https://east.example.com", Namespace := "default" }
        Project := "default" } }

/-- The live Application of the same name, at another source path and with system-managed
fields set. -/
def guestbookMoved : Application :=
  { ObjectMeta := { Name := "guestbook", Namespace := "argocd", ResourceVersion := "41" }
    Spec :=
      { Source := { RepoURL := "https://git.example.com/apps", Path := "guestbook-v2" }
        Destination := { Server := "https://east.example.com", Namespace := "default" }
        Project := "default" }
    Status := { Sync := "Synced", Health := "Healthy" } }

end applicationsets

namespace controllers

/-- The generator kinds whose field is populated in a spec element, among those the reconciler
tests, in the order it tests them. -/
def kindsOf (g : ApplicationSetGenerator) : List GeneratorKind :=
  (if g.List.isSome then [GeneratorKind.List] else []) ++
    (if g.Git.isSome then [GeneratorKind.Git] else [])

/-- The generator calls a pass over `gens` is to make when it visits every element in list order,
the first element at position `index`. -/
def plannedInvocations : Nat → List ApplicationSetGenerator → List (GeneratorKind × Nat)
  | _, [] => []
  | index, g :: rest =>
    (kindsOf g).map (fun kind => (kind, index)) ++ plannedInvocations (index + 1) rest

/-- A generator spec with the Git kind alone populated. -/
def gitOnly : ApplicationSetGenerator :=
  ⟨none, none, some ⟨"https://git.example.com/apps", "HEAD", ["apps/*"]⟩⟩

/-- A generator spec with both the List and the Git kind populated. -/
def listAndGit : ApplicationSetGenerator :=
  ⟨some ⟨[[("cluster", "east")]]⟩, none, some ⟨"https://git.example.com/apps", "HEAD", ["apps/*"]⟩⟩

/-- An ApplicationSet named `fleet` with the generator specs `gens`. -/
def fleet (gens : List ApplicationSetGenerator) : ApplicationSet :=
  ⟨{ Name := "fleet", Namespace := "argocd" }, ⟨gens, {}⟩⟩

/-- An API server that holds `fleet gens` under every key. -/
def getFleet (gens : List ApplicationSetGenerator) :
    NamespacedName → Except GoError ApplicationSet :=
  fun _ => Except.ok (fleet gens)

/-- An API server whose `Get` fails with `err`. -/
def getFails (err : GoError) : NamespacedName → Except GoError ApplicationSet :=
  fun _ => Except.error err

/-- The request for `argocd/fleet`. -/
def fleetRequest : Request := ⟨⟨"argocd", "fleet"⟩⟩

/-- A generator that succeeds with no Application. -/
def succeeds : GenerateApplications := fun _ _ _ => ([], none)

/-- A generator that fails on the element at position `n` and succeeds elsewhere. -/
def failsAt (n : Nat) : GenerateApplications := fun index _ _ =>
  if index = n then ([], some (GoError.Other "generator failed")) else ([], none)

end controllers

/-! ## Lemmas on Go maps -/

namespace GoMap

theorem get_set (m : GoMap) (k v k2 : String) :
    get (set m k v) k2 = if k = k2 then some v else get m k2 := by
  induction m with
  | nil => simp [set, get]
  | cons p t ih =>
    obtain ⟨k1, v1⟩ := p
    by_cases h1 : k1 = k
    · subst h1
      by_cases h2 : k1 = k2 <;> simp [set, get, h2]
    · by_cases h2 : k1 = k2
      · subst h2
        simp [set, get, h1, Ne.symm h1]
      · simp [set, get, h1, h2, ih]

theorem get_set_self (m : GoMap) (k v : String) : get (set m k v) k = some v := by
  simp [get_set]

theorem get_set_of_ne (m : GoMap) (k v k2 : String) (h : k ≠ k2) :
    get (set m k v) k2 = get m k2 := by
  simp [get_set, h]

theorem get_isSome_iff (m : GoMap) (k : String) : get m k ≠ none ↔ k ∈ m.keys := by
  induction m with
  | nil => simp [get, keys]
  | cons p t ih =>
    obtain ⟨k1, v1⟩ := p
    by_cases h1 : k1 = k
    · subst h1
      simp [get, keys]
    · have ih2 : get t k ≠ none ↔ k ∈ List.map Prod.fst t := ih
      simp [get, keys, h1, Ne.symm h1, ih2]

theorem mem_of_get (m : GoMap) (k v : String) (h : get m k = some v) : (k, v) ∈ m := by
  induction m with
  | nil => simp [get] at h
  | cons p t ih =>
    obtain ⟨k1, v1⟩ := p
    by_cases h1 : k1 = k
    · subst h1
      simp [get] at h
      simp [h]
    · simp [get, h1] at h
      exact List.mem_cons_of_mem _ (ih h)

theorem keys_set (m : GoMap) (k v : String) :
    (set m k v).keys = if k ∈ m.keys then m.keys else m.keys ++ [k] := by
  induction m with
  | nil => simp [set, keys]
  | cons p t ih =>
    obtain ⟨k1, v1⟩ := p
    by_cases h1 : k1 = k
    · subst h1
      simp [set, keys]
    · have ih2 : List.map Prod.fst (set t k v)
          = if k ∈ List.map Prod.fst t then List.map Prod.fst t else List.map Prod.fst t ++ [k] := ih
      simp only [set, keys, h1, if_false, List.map_cons, List.mem_cons, Ne.symm h1, false_or, ih2]
      split <;> simp

theorem WF_set (m : GoMap) (k v : String) (h : m.WF) : (set m k v).WF := by
  unfold WF at *
  rw [keys_set]
  split
  · exact h
  · rename_i hk
    rw [List.nodup_append]
    refine ⟨h, List.nodup_singleton k, ?_⟩
    intro a ha hb
    simp at hb
    subst hb
    exact absurd ha hk

/-- A `range` loop that assigns `acc[f k] = v` for every entry leaves the keys outside the image
of `f` untouched. -/
theorem get_foldl_set_of_not_mem (f : String → String) (labels acc : GoMap) (key : String)
    (h : ∀ k ∈ labels.keys, f k ≠ key) :
    get (labels.foldl (fun params kv => set params (f kv.1) kv.2) acc) key = get acc key := by
  induction labels generalizing acc with
  | nil => rfl
  | cons p t ih =>
    simp only [List.foldl_cons]
    rw [ih]
    · exact get_set_of_ne _ _ _ _ (h p.1 (by simp [keys]))
    · intro k hk
      exact h k (by simp [keys] at hk ⊢; exact Or.inr hk)

/-- A `range` loop that assigns `acc[f k] = v` for every entry of a well-formed map, `f`
injective, ends with `f k` bound to `v` for every entry. -/
theorem get_foldl_set_of_mem (f : String → String) (hf : Function.Injective f)
    (labels acc : GoMap) (hwf : labels.WF) (k v : String) (h : (k, v) ∈ labels) :
    get (labels.foldl (fun params kv => set params (f kv.1) kv.2) acc) (f k) = some v := by
  induction labels generalizing acc with
  | nil => simp at h
  | cons p t ih =>
    have hnd : p.1 ∉ keys t ∧ WF t := by
      simpa [WF, keys, List.nodup_cons] using hwf
    simp only [List.foldl_cons]
    rcases List.mem_cons.mp h with heq | hmem
    · subst heq
      rw [get_foldl_set_of_not_mem]
      · exact get_set_self _ _ _
      · intro k2 hk2 hfe
        exact hnd.1 (hf hfe ▸ hk2)
    · exact ih _ hnd.2 hmem

theorem WF_foldl_set (f : String → String) (labels acc : GoMap) (h : acc.WF) :
    (labels.foldl (fun params kv => set params (f kv.1) kv.2) acc).WF := by
  induction labels generalizing acc with
  | nil => exact h
  | cons p t ih =>
    simp only [List.foldl_cons]
    exact ih _ (WF_set _ _ _ h)

end GoMap

/-! ## The cluster generator -/

namespace generators

theorem labelKey_injective : Function.Injective fun k : String => "metadata.labels." ++ k := by
  intro a b h
  have hd := congrArg String.data h
  simp only [String.data_append, List.append_cancel_left_eq] at hd
  exact String.ext hd

theorem labelKey_ne_name (k : String) : "metadata.labels." ++ k ≠ "name" := by
  intro h
  have hd := congrArg String.data h
  simp at hd

theorem labelKey_ne_server (k : String) : "metadata.labels." ++ k ≠ "server" := by
  intro h
  have hd := congrArg String.data h
  simp at hd

theorem clusterParams_name (s : Secret) : GoMap.get (clusterParams s) "name" = some s.Name := by
  unfold clusterParams
  rw [GoMap.get_foldl_set_of_not_mem (fun k => "metadata.labels." ++ k)]
  · rw [GoMap.get_set_of_ne _ _ _ _ (by decide), GoMap.get_set_self]
  · intro k _
    exact labelKey_ne_name k

theorem clusterParams_server (s : Secret) :
    GoMap.get (clusterParams s) "server" = some (dataString s.Data "server") := by
  unfold clusterParams
  rw [GoMap.get_foldl_set_of_not_mem (fun k => "metadata.labels." ++ k)]
  · exact GoMap.get_set_self _ _ _
  · intro k _
    exact labelKey_ne_server k

theorem clusterParams_label (s : Secret) (hwf : GoMap.WF s.Labels) (k v : String)
    (h : GoMap.get s.Labels k = some v) :
    GoMap.get (clusterParams s) ("metadata.labels." ++ k) = some v :=
  GoMap.get_foldl_set_of_mem (fun k => "metadata.labels." ++ k) labelKey_injective _ _ hwf k v
    (GoMap.mem_of_get _ _ _ h)

theorem clusterParams_keys (s : Secret) (key : String)
    (h : GoMap.get (clusterParams s) key ≠ none) :
    key = "name" ∨ key = "server" ∨
      ∃ k, GoMap.get s.Labels k ≠ none ∧ key = "metadata.labels." ++ k := by
  by_cases hex : ∃ k ∈ GoMap.keys s.Labels, "metadata.labels." ++ k = key
  · obtain ⟨k, hk, hkey⟩ := hex
    exact Or.inr (Or.inr ⟨k, (GoMap.get_isSome_iff _ _).mpr hk, hkey.symm⟩)
  · have hno : ∀ k ∈ GoMap.keys s.Labels, (fun k => "metadata.labels." ++ k) k ≠ key := by
      intro k hk hkey
      exact hex ⟨k, hk, hkey⟩
    unfold clusterParams at h
    rw [GoMap.get_foldl_set_of_not_mem (fun k => "metadata.labels." ++ k) _ _ _ hno] at h
    by_cases h1 : key = "server"
    · exact Or.inr (Or.inl h1)
    · by_cases h2 : key = "name"
      · exact Or.inl h2
      · rw [GoMap.get_set_of_ne _ _ _ _ (Ne.symm h1), GoMap.get_set_of_ne _ _ _ _ (Ne.symm h2)] at h
        exact absurd rfl h

theorem clusterParams_WF (s : Secret) : GoMap.WF (clusterParams s) := by
  unfold clusterParams
  apply GoMap.WF_foldl_set
  apply GoMap.WF_set
  apply GoMap.WF_set
  simp [GoMap.WF, GoMap.keys]

/-- C1. When the Clusters kind is populated and the store's List returns the records `items`,
`GenerateParams` returns a nil error and a non-nil list of as many parameter mappings, in the
same order; the mapping of a record has unique keys, binds `name` to the record's name, `server`
to the string of its data entry `server` (empty when the entry is absent) and
`metadata.labels.<k>` to `v` for every label `k=v` of the record, whatever `k` is, and binds no
other key. -/
theorem GenerateParams_clusters_mappings (list : GoMap → Except GoError (List Secret))
    (g : ApplicationSetGenerator) (c : ClusterGeneratorSpec) (items : List Secret)
    (hc : g.Clusters = some c) (hl : list (secretLabels c) = Except.ok items)
    (hwf : ∀ s ∈ items, GoMap.WF s.Labels) :
    (GenerateParams list (some g)).err = none ∧
    ∃ res : List GoMap, (GenerateParams list (some g)).params = some res ∧
      res.length = items.length ∧
      ∀ (i : Nat) (s : Secret), items[i]? = some s →
        ∃ p : GoMap, res[i]? = some p ∧ GoMap.WF p ∧
          GoMap.get p "name" = some s.Name ∧
          GoMap.get p "server" = some ((GoMap.get s.Data "server").getD "") ∧
          (∀ k v, GoMap.get s.Labels k = some v →
            GoMap.get p ("metadata.labels." ++ k) = some v) ∧
          (∀ key, GoMap.get p key ≠ none →
            key = "name" ∨ key = "server" ∨
              ∃ k, GoMap.get s.Labels k ≠ none ∧ key = "metadata.labels." ++ k) := by
  have hres : GenerateParams list (some g) = ⟨some (items.map clusterParams), none, [secretLabels c]⟩ := by
    simp [GenerateParams, hc, hl]
  rw [hres]
  refine ⟨rfl, items.map clusterParams, rfl, by simp, ?_⟩
  intro i s hi
  refine ⟨clusterParams s, by simp [List.getElem?_map, hi], clusterParams_WF s,
    clusterParams_name s, clusterParams_server s, ?_, clusterParams_keys s⟩
  intro k v hkv
  exact clusterParams_label s (hwf s (List.getElem?_mem hi)) k v hkv

end generators

namespace generators

theorem GenerateParams_clusters_mappings_witness :
    selectProd.Clusters = some prodSelector ∧
    labelStore [prodEast, stagingOne, prodWest] (secretLabels prodSelector)
      = Except.ok [prodEast, prodWest] ∧
    (∀ s ∈ [prodEast, prodWest], GoMap.WF s.Labels) ∧
    (GenerateParams (labelStore [prodEast, stagingOne, prodWest]) (some selectProd)).err = none :=
  ⟨rfl, rfl, by decide,
    (GenerateParams_clusters_mappings (labelStore [prodEast, stagingOne, prodWest]) selectProd
      prodSelector [prodEast, prodWest] rfl rfl (by decide)).1⟩

/-- The label set passed to the store contains every pair of a well-formed `MatchLabels`. -/
theorem secretLabels_matchLabels (c : ClusterGeneratorSpec)
    (hwf : GoMap.WF c.Selector.MatchLabels) (k v : String)
    (h : GoMap.get c.Selector.MatchLabels k = some v) :
    GoMap.get (secretLabels c) k = some v :=
  GoMap.get_foldl_set_of_mem (fun k => k) (fun _ _ h => h) _ _ hwf k v (GoMap.mem_of_get _ _ _ h)

/-- The label set passed to the store binds the discriminator label to `cluster` when
`MatchLabels` does not name that label. -/
theorem secretLabels_discriminator (c : ClusterGeneratorSpec)
    (h : GoMap.get c.Selector.MatchLabels ArgoCDSecretTypeLabel = none) :
    GoMap.get (secretLabels c) ArgoCDSecretTypeLabel = some ArgoCDSecretTypeCluster := by
  unfold secretLabels
  rw [GoMap.get_foldl_set_of_not_mem (fun k => k)]
  · simp [GoMap.get]
  · intro k hk hkey
    have hk2 : k = ArgoCDSecretTypeLabel := hkey
    subst hk2
    exact (GoMap.get_isSome_iff _ _).mpr hk h

/-- Three records, two labelled `env=prod` and one `env=staging`, and the selector `env=prod`:
the store is queried once, with the discriminator and `env=prod`, and two mappings result. -/
theorem GenerateParams_three_records :
    GenerateParams (labelStore [prodEast, stagingOne, prodWest]) (some selectProd) =
      ⟨some [clusterParams prodEast, clusterParams prodWest], none,
        [[(ArgoCDSecretTypeLabel, ArgoCDSecretTypeCluster), ("env", "prod")]]⟩ := by
  decide

/-- C2. A selector whose `MatchLabels` names the discriminator label replaces its value: with
`argocd.argoproj.io/secret-type=repository` in the selector, the only label set passed to the
store binds the discriminator to `repository`, not to `cluster`, and against a store holding a
repository secret and a cluster secret the generator emits the mapping of the repository secret
alone. -/
theorem GenerateParams_discriminator_overwritten :
    (∀ list : GoMap → Except GoError (List Secret),
      (GenerateParams list (some selectRepository)).listCalls
        = [[(ArgoCDSecretTypeLabel, "repository")]]) ∧
    GoMap.get [(ArgoCDSecretTypeLabel, "repository")] ArgoCDSecretTypeLabel
      ≠ some ArgoCDSecretTypeCluster ∧
    (GenerateParams (labelStore [repoCreds, prodEast]) (some selectRepository)).params
      = some [clusterParams repoCreds] := by
  refine ⟨fun list => ?_, by decide, by decide⟩
  simp only [GenerateParams, selectRepository]
  split <;> rfl

/-- C3. `GenerateParams` returns a non-nil error exactly when the spec is nil or the Clusters kind
is populated and the store's List fails; the error is `EmptyAppSetGeneratorError` in the first
case and the store's own error in the second; with an error the returned list is nil. -/
theorem GenerateParams_error_iff (list : GoMap → Except GoError (List Secret))
    (spec : Option ApplicationSetGenerator) :
    ((GenerateParams list spec).err ≠ none ↔
      spec = none ∨
        ∃ g c e, spec = some g ∧ g.Clusters = some c ∧ list (secretLabels c) = Except.error e) ∧
    (spec = none → (GenerateParams list spec).err = some GoError.EmptyAppSetGeneratorError) ∧
    (∀ g c e, spec = some g → g.Clusters = some c → list (secretLabels c) = Except.error e →
      (GenerateParams list spec).err = some e) ∧
    ((GenerateParams list spec).err ≠ none → (GenerateParams list spec).params = none) := by
  cases spec with
  | none => simp [GenerateParams]
  | some g =>
    cases hc : g.Clusters with
    | none =>
      have hres : GenerateParams list (some g) = ⟨none, none, []⟩ := by
        simp [GenerateParams, hc]
      rw [hres]
      refine ⟨⟨fun h => absurd rfl h, ?_⟩, fun h => by simp at h, ?_, fun h => absurd rfl h⟩
      · rintro (h | ⟨g2, c, e, hg, hc2, -⟩)
        · simp at h
        · cases hg
          rw [hc] at hc2
          simp at hc2
      · intro g2 c e hg hc2
        cases hg
        rw [hc] at hc2
        simp at hc2
    | some c =>
      cases hl : list (secretLabels c) with
      | error e =>
        have hres : GenerateParams list (some g) = ⟨none, some e, [secretLabels c]⟩ := by
          simp [GenerateParams, hc, hl]
        rw [hres]
        refine ⟨⟨fun _ => Or.inr ⟨g, c, e, rfl, hc, hl⟩, fun _ => by simp⟩,
          fun h => by simp at h, ?_, fun _ => rfl⟩
        intro g2 c2 e2 hg hc2 hl2
        cases hg
        rw [hc] at hc2
        cases hc2
        rw [hl] at hl2
        cases hl2
        rfl
      | ok items =>
        have hres : GenerateParams list (some g)
            = ⟨some (items.map clusterParams), none, [secretLabels c]⟩ := by
          simp [GenerateParams, hc, hl]
        rw [hres]
        refine ⟨⟨fun h => absurd rfl h, ?_⟩, fun h => by simp at h, ?_, fun h => absurd rfl h⟩
        · rintro (h | ⟨g2, c2, e, hg, hc2, hl2⟩)
          · simp at h
          · cases hg
            rw [hc] at hc2
            cases hc2
            rw [hl] at hl2
            cases hl2
        · intro g2 c2 e hg hc2 hl2
          cases hg
          rw [hc] at hc2
          cases hc2
          rw [hl] at hl2
          cases hl2

/-- C4. For a non-nil spec whose Clusters kind is not populated, `GenerateParams` returns a nil
list and a nil error without calling the store's List, while a nil spec gives a non-nil error:
the two results differ. -/
theorem GenerateParams_not_applicable (list : GoMap → Except GoError (List Secret))
    (g : ApplicationSetGenerator) (hc : g.Clusters = none) :
    (GenerateParams list (some g)).params = none ∧
    (GenerateParams list (some g)).err = none ∧
    (GenerateParams list (some g)).listCalls = [] ∧
    (GenerateParams list none).err ≠ none ∧
    GenerateParams list (some g) ≠ GenerateParams list none := by
  simp [GenerateParams, hc]

theorem GenerateParams_not_applicable_witness :
    listOnly.Clusters = none ∧
    (GenerateParams (labelStore [prodEast]) (some listOnly)).params = none ∧
    (GenerateParams (labelStore [prodEast]) (some listOnly)).err = none ∧
    (GenerateParams (labelStore [prodEast]) (some listOnly)).listCalls = [] ∧
    (GenerateParams (labelStore [prodEast]) none).err ≠ none ∧
    GenerateParams (labelStore [prodEast]) (some listOnly)
      ≠ GenerateParams (labelStore [prodEast]) none :=
  ⟨rfl, GenerateParams_not_applicable (labelStore [prodEast]) listOnly rfl⟩

end generators

/-! ## The relevant-field projection -/

namespace reflect

theorem deepEqualMap_refl (m : Option GoMap) : deepEqualMap m m = true := by
  cases m with
  | none => rfl
  | some m =>
    simp only [deepEqualMap, beq_self_eq_true, Bool.true_and, List.all_eq_true]
    intro k hk
    cases hg : GoMap.get m k with
    | none => exact absurd hg ((GoMap.get_isSome_iff m k).mpr hk)
    | some v => simp

theorem deepEqualSlice_iff (s1 s2 : Option (List String)) :
    deepEqualSlice s1 s2 = true ↔ s1 = s2 := by
  cases s1 <;> cases s2 <;> simp [deepEqualSlice]

end reflect

namespace applicationsets

/-- C5. `appsAreEqual a b` holds exactly when `a` and `b` are deeply equal on labels,
annotations, name, namespace, finalizers, source repoURL, path and targetRevision, destination
server, name and namespace, and project.  Hence two Applications that agree on these twelve
fields are reported equal whatever their other fields hold, and two whose source paths differ are
reported not equal. -/
theorem appsAreEqual_iff_projection (a b : Application) :
    (appsAreEqual a b = true ↔
      reflect.deepEqualMap a.ObjectMeta.Labels b.ObjectMeta.Labels = true ∧
      reflect.deepEqualMap a.ObjectMeta.Annotations b.ObjectMeta.Annotations = true ∧
      a.ObjectMeta.Name = b.ObjectMeta.Name ∧
      a.ObjectMeta.Namespace = b.ObjectMeta.Namespace ∧
      reflect.deepEqualSlice a.ObjectMeta.Finalizers b.ObjectMeta.Finalizers = true ∧
      a.Spec.Source.RepoURL = b.Spec.Source.RepoURL ∧
      a.Spec.Source.Path = b.Spec.Source.Path ∧
      a.Spec.Source.TargetRevision = b.Spec.Source.TargetRevision ∧
      a.Spec.Destination.Server = b.Spec.Destination.Server ∧
      a.Spec.Destination.Name = b.Spec.Destination.Name ∧
      a.Spec.Destination.Namespace = b.Spec.Destination.Namespace ∧
      a.Spec.Project = b.Spec.Project) ∧
    (a.ObjectMeta.Labels = b.ObjectMeta.Labels →
      a.ObjectMeta.Annotations = b.ObjectMeta.Annotations →
      a.ObjectMeta.Name = b.ObjectMeta.Name →
      a.ObjectMeta.Namespace = b.ObjectMeta.Namespace →
      a.ObjectMeta.Finalizers = b.ObjectMeta.Finalizers →
      a.Spec.Source.RepoURL = b.Spec.Source.RepoURL →
      a.Spec.Source.Path = b.Spec.Source.Path →
      a.Spec.Source.TargetRevision = b.Spec.Source.TargetRevision →
      a.Spec.Destination = b.Spec.Destination →
      a.Spec.Project = b.Spec.Project →
      appsAreEqual a b = true) ∧
    (a.Spec.Source.Path ≠ b.Spec.Source.Path → appsAreEqual a b = false) := by
  have key : appsAreEqual a b = true ↔
      reflect.deepEqualMap a.ObjectMeta.Labels b.ObjectMeta.Labels = true ∧
      reflect.deepEqualMap a.ObjectMeta.Annotations b.ObjectMeta.Annotations = true ∧
      a.ObjectMeta.Name = b.ObjectMeta.Name ∧
      a.ObjectMeta.Namespace = b.ObjectMeta.Namespace ∧
      reflect.deepEqualSlice a.ObjectMeta.Finalizers b.ObjectMeta.Finalizers = true ∧
      a.Spec.Source.RepoURL = b.Spec.Source.RepoURL ∧
      a.Spec.Source.Path = b.Spec.Source.Path ∧
      a.Spec.Source.TargetRevision = b.Spec.Source.TargetRevision ∧
      a.Spec.Destination.Server = b.Spec.Destination.Server ∧
      a.Spec.Destination.Name = b.Spec.Destination.Name ∧
      a.Spec.Destination.Namespace = b.Spec.Destination.Namespace ∧
      a.Spec.Project = b.Spec.Project := by
    simp only [appsAreEqual, reflect.DeepEqual, reflect.deepEqualObjectMeta, reflect.deepEqualSpec,
      filterFields, Bool.and_eq_true, beq_iff_eq, beq_self_eq_true, true_and, and_true,
      reflect.deepEqualSlice, reflect.deepEqualSlice_iff]
    tauto
  refine ⟨key, ?_, ?_⟩
  · intro h1 h2 h3 h4 h5 h6 h7 h8 h9 h10
    rw [key, h1, h2, h5, h9]
    exact ⟨reflect.deepEqualMap_refl _, reflect.deepEqualMap_refl _, h3, h4,
      (reflect.deepEqualSlice_iff _ _).mpr rfl, h6, h7, h8, rfl, rfl, rfl, h10⟩
  · intro hp
    cases he : appsAreEqual a b with
    | false => rfl
    | true => exact absurd (key.mp he).2.2.2.2.2.2.1 hp

end applicationsets

/-! ## The expectation `ApplicationsExist` -/

namespace applicationsets

theorem mentions_missingAppMessage (name : String) : mentions (missingAppMessage name) name := by
  unfold mentions missingAppMessage
  simp only [String.data_append]
  exact List.infix_append _ _ _

theorem mentions_notEqualMessage (name diff : String) :
    mentions (notEqualMessage name diff) name := by
  unfold mentions notEqualMessage
  simp only [String.data_append, List.append_assoc]
  rw [← List.append_assoc]
  exact List.infix_append _ _ _

theorem ApplicationsExist_cons_satisfied (patch : MergePatch) (e : Application)
    (rest : List Application) (app : String → Option Application) (h : satisfied app e = true) :
    ApplicationsExist patch (e :: rest) app = ApplicationsExist patch rest app := by
  unfold satisfied at h
  cases hf : app e.ObjectMeta.Name with
  | none => simp [hf] at h
  | some f =>
    simp only [hf] at h
    simp [ApplicationsExist, hf, h]

theorem ApplicationsExist_cons_missing (patch : MergePatch) (e : Application)
    (rest : List Application) (app : String → Option Application)
    (h : app e.ObjectMeta.Name = none) :
    ApplicationsExist patch (e :: rest) app = (pending, missingAppMessage e.ObjectMeta.Name) := by
  simp [ApplicationsExist, h]

theorem ApplicationsExist_cons_unequal (patch : MergePatch) (e f : Application)
    (rest : List Application) (app : String → Option Application)
    (hf : app e.ObjectMeta.Name = some f) (h : appsAreEqual e f = false) :
    ApplicationsExist patch (e :: rest) app =
      match patch (filterFields e) (filterFields f) (filterFields e) with
      | Except.ok (diff, _) => (pending, notEqualMessage e.ObjectMeta.Name diff)
      | Except.error err => (failed, err) := by
  simp only [ApplicationsExist, hf, h, getDiff]
  cases patch (filterFields e) (filterFields f) (filterFields e) with
  | error err => simp
  | ok r => simp

theorem ApplicationsExist_state_ne_succeeded_of_unsatisfied (patch : MergePatch) (e : Application)
    (rest : List Application) (app : String → Option Application)
    (h : satisfied app e = false) :
    (ApplicationsExist patch (e :: rest) app).1 ≠ succeeded := by
  cases hf : app e.ObjectMeta.Name with
  | none =>
    rw [ApplicationsExist_cons_missing patch e rest app hf]
    exact (by decide : pending ≠ succeeded)
  | some f =>
    have hne : appsAreEqual e f = false := by simpa [satisfied, hf] using h
    rw [ApplicationsExist_cons_unequal patch e f rest app hf hne]
    cases patch (filterFields e) (filterFields f) (filterFields e) with
    | error err => exact (by decide : failed ≠ succeeded)
    | ok r => exact (by decide : pending ≠ succeeded)

/-- The result of the expectation in every branch.  It returns `succeeded` exactly when every
expected Application is found by name in the live state and `appsAreEqual` to what is found.
Otherwise, for the first
expected Application `e`, in list order, that is missing or not equal: when `e` is missing the
result is `pending` with the message `missing app <e>`; when `e` is found and the diff is
computed the result is `pending` with the message `apps are not equal: <e>, diff: ...`, both
messages naming `e`; when computing the diff fails the result is `failed` and the message is the
diff error's text. -/
theorem ApplicationsExist_result (patch : MergePatch) (expected : List Application)
    (app : String → Option Application) :
    ((ApplicationsExist patch expected app).1 = succeeded ↔
      ∀ e ∈ expected, ∃ f, app e.ObjectMeta.Name = some f ∧ appsAreEqual e f = true) ∧
    (∀ e, expected.find? (fun x => !satisfied app x) = some e →
      (app e.ObjectMeta.Name = none →
        ApplicationsExist patch expected app = (pending, missingAppMessage e.ObjectMeta.Name) ∧
        mentions (ApplicationsExist patch expected app).2 e.ObjectMeta.Name) ∧
      (∀ f, app e.ObjectMeta.Name = some f →
        (∀ diff, getDiff patch (filterFields e) (filterFields f) = (diff, none) →
          ApplicationsExist patch expected app
            = (pending, notEqualMessage e.ObjectMeta.Name diff) ∧
          mentions (ApplicationsExist patch expected app).2 e.ObjectMeta.Name) ∧
        (∀ diff err, getDiff patch (filterFields e) (filterFields f) = (diff, some err) →
          ApplicationsExist patch expected app = (failed, err)))) := by
  induction expected with
  | nil =>
    refine ⟨⟨fun _ e he => by simp at he, fun _ => rfl⟩, fun e he => by simp at he⟩
  | cons x rest ih =>
    cases hs : satisfied app x with
    | true =>
      rw [ApplicationsExist_cons_satisfied patch x rest app hs]
      have hx : ∃ f, app x.ObjectMeta.Name = some f ∧ appsAreEqual x f = true := by
        unfold satisfied at hs
        cases hf : app x.ObjectMeta.Name with
        | none => simp [hf] at hs
        | some f => exact ⟨f, rfl, by simpa [hf] using hs⟩
      refine ⟨?_, ?_⟩
      · rw [ih.1]
        constructor
        · intro h e he
          rcases List.mem_cons.mp he with rfl | hr
          · exact hx
          · exact h e hr
        · intro h e he
          exact h e (List.mem_cons_of_mem _ he)
      · intro e he
        rw [List.find?_cons] at he
        simp only [hs, Bool.not_true] at he
        exact ih.2 e he
    | false =>
      refine ⟨⟨fun h => absurd h
          (ApplicationsExist_state_ne_succeeded_of_unsatisfied patch x rest app hs), ?_⟩, ?_⟩
      · intro h
        obtain ⟨f, hf, heq⟩ := h x (List.mem_cons_self _ _)
        simp [satisfied, hf, heq] at hs
      · intro e he
        rw [List.find?_cons] at he
        simp only [hs, Bool.not_false, Option.some.injEq] at he
        subst he
        refine ⟨fun hnone => ?_, fun f hf => ?_⟩
        · rw [ApplicationsExist_cons_missing patch x rest app hnone]
          exact ⟨rfl, mentions_missingAppMessage _⟩
        · have hne : appsAreEqual x f = false := by simpa [satisfied, hf] using hs
          rw [ApplicationsExist_cons_unequal patch x f rest app hf hne]
          unfold getDiff
          cases patch (filterFields x) (filterFields f) (filterFields x) with
          | error err =>
            refine ⟨fun diff hd => ?_, fun diff err2 hd => ?_⟩
            · simp at hd
            · simp only [Prod.mk.injEq, Option.some.injEq] at hd
              simp [hd.2]
          | ok r =>
            refine ⟨fun diff hd => ?_, fun diff err2 hd => ?_⟩
            · simp only [Prod.mk.injEq, and_true] at hd
              subst hd
              exact ⟨rfl, mentions_notEqualMessage _ _⟩
            · simp at hd

/-- C10. Let the merge-patch call of the gitops-engine library succeed on projected
Applications.  For every list of expected Applications and every live state the expectation
returns `succeeded` exactly when, for every expected Application, a live Application of that name
is found and `appsAreEqual` holds of the two.  Otherwise it returns `pending` or `failed`, and the
list splits at an expected Application that is missing or not equal, all the ones before it being
found and equal, whose name the message contains. -/
theorem ApplicationsExist_expectation (patch : MergePatch)
    (hpatch : ∀ a b : Application,
      ∃ r, patch (filterFields a) (filterFields b) (filterFields a) = Except.ok r)
    (expected : List Application) (app : String → Option Application) :
    ((ApplicationsExist patch expected app).1 = succeeded ↔
      ∀ e ∈ expected, ∃ f, app e.ObjectMeta.Name = some f ∧ appsAreEqual e f = true) ∧
    ((ApplicationsExist patch expected app).1 ≠ succeeded →
      ((ApplicationsExist patch expected app).1 = pending ∨
        (ApplicationsExist patch expected app).1 = failed) ∧
      ∃ before e after, expected = before ++ e :: after ∧
        (∀ x ∈ before, ∃ f, app x.ObjectMeta.Name = some f ∧ appsAreEqual x f = true) ∧
        (app e.ObjectMeta.Name = none ∨
          ∃ f, app e.ObjectMeta.Name = some f ∧ appsAreEqual e f = false) ∧
        mentions (ApplicationsExist patch expected app).2 e.ObjectMeta.Name) := by
  refine ⟨(ApplicationsExist_result patch expected app).1, ?_⟩
  induction expected with
  | nil =>
    intro h
    exact absurd rfl h
  | cons x rest ih =>
    cases hs : satisfied app x with
    | true =>
      rw [ApplicationsExist_cons_satisfied patch x rest app hs]
      intro h
      obtain ⟨hstate, before, e, after, hsplit, hbefore, he, hm⟩ := ih h
      have hx : ∃ f, app x.ObjectMeta.Name = some f ∧ appsAreEqual x f = true := by
        unfold satisfied at hs
        cases hf : app x.ObjectMeta.Name with
        | none => simp [hf] at hs
        | some f => exact ⟨f, rfl, by simpa [hf] using hs⟩
      refine ⟨hstate, x :: before, e, after, by simp [hsplit], ?_, he, hm⟩
      intro y hy
      rcases List.mem_cons.mp hy with rfl | hy
      · exact hx
      · exact hbefore y hy
    | false =>
      intro _
      cases hf : app x.ObjectMeta.Name with
      | none =>
        rw [ApplicationsExist_cons_missing patch x rest app hf]
        exact ⟨Or.inl rfl, [], x, rest, rfl, fun y hy => by simp at hy, Or.inl hf,
          mentions_missingAppMessage _⟩
      | some f =>
        have hne : appsAreEqual x f = false := by simpa [satisfied, hf] using hs
        rw [ApplicationsExist_cons_unequal patch x f rest app hf hne]
        obtain ⟨r, hr⟩ := hpatch x f
        rw [hr]
        exact ⟨Or.inl rfl, [], x, rest, rfl, fun y hy => by simp at hy,
          Or.inr ⟨f, hf, hne⟩, mentions_notEqualMessage _ _⟩

theorem ApplicationsExist_expectation_witness :
    (∀ a b : Application,
      ∃ r, emptyPatch (filterFields a) (filterFields b) (filterFields a) = Except.ok r) ∧
    (ApplicationsExist emptyPatch [guestbook] (liveApps [guestbookMoved])).1 ≠ succeeded ∧
    ((ApplicationsExist emptyPatch [guestbook] (liveApps [guestbookMoved])).1 = pending ∨
      (ApplicationsExist emptyPatch [guestbook] (liveApps [guestbookMoved])).1 = failed) :=
  ⟨fun _ _ => ⟨_, rfl⟩, by decide,
    ((ApplicationsExist_expectation emptyPatch (fun _ _ => ⟨_, rfl⟩) [guestbook]
      (liveApps [guestbookMoved])).2 (by decide)).1⟩

end applicationsets

/-! ## The reconciler -/

namespace controllers

theorem invocations_append (a b : List Event) :
    invocations (a ++ b) = invocations a ++ invocations b := by
  simp [invocations, List.filterMap_append]

theorem recordedErrors_append (a b : List Event) :
    recordedErrors (a ++ b) = recordedErrors a ++ recordedErrors b := by
  simp [recordedErrors, List.filterMap_append]

theorem invocationsAt_append (a b : List Event) (j : Nat) :
    invocationsAt (a ++ b) j = invocationsAt a j ++ invocationsAt b j := by
  simp [invocationsAt, invocations_append]

theorem dispatch_events (LG GG : GenerateApplications) (info : ApplicationSet) (i : Nat)
    (g : ApplicationSetGenerator) :
    (dispatch LG GG info i g).2 = (kindsOf g).map fun kind => Event.GenerateApplications kind i := by
  unfold dispatch kindsOf
  cases g.List <;> cases g.Git <;> simp

theorem invocations_iteration (LG GG : GenerateApplications) (info : ApplicationSet) (i : Nat)
    (g : ApplicationSetGenerator) :
    invocations (iteration LG GG info i g) = (kindsOf g).map fun kind => (kind, i) := by
  unfold iteration
  simp only [dispatch_events]
  have hmap : List.filterMap (fun x => some (x, i)) (kindsOf g)
      = List.map (fun kind => (kind, i)) (kindsOf g) := by
    induction kindsOf g with
    | nil => rfl
    | cons k t ih => simp [List.filterMap_cons, ih]
  cases (dispatch LG GG info i g).1.2 <;>
    simp [invocations, List.filterMap_append, List.filterMap_map, Function.comp_def, hmap]

theorem recordedErrors_iteration (LG GG : GenerateApplications) (info : ApplicationSet) (i : Nat)
    (g : ApplicationSetGenerator) :
    recordedErrors (iteration LG GG info i g) =
      match (dispatch LG GG info i g).1.2 with
      | some err => [(i, err)]
      | none => [] := by
  unfold iteration
  simp only [dispatch_events]
  cases (dispatch LG GG info i g).1.2 <;>
    simp [recordedErrors, List.filterMap_append, List.filterMap_map, Function.comp_def]

theorem invocations_loop (LG GG : GenerateApplications) (info : ApplicationSet) (i : Nat)
    (gens : List ApplicationSetGenerator) :
    invocations (loop LG GG info i gens) = plannedInvocations i gens := by
  induction gens generalizing i with
  | nil => rfl
  | cons g rest ih =>
    simp only [loop, plannedInvocations, invocations_append, invocations_iteration, ih]

theorem plannedInvocations_index (i : Nat) (gens : List ApplicationSetGenerator) :
    ∀ p ∈ plannedInvocations i gens, i ≤ p.2 := by
  induction gens generalizing i with
  | nil => simp [plannedInvocations]
  | cons g rest ih =>
    intro p hp
    simp only [plannedInvocations, List.mem_append, List.mem_map] at hp
    rcases hp with ⟨k, _, rfl⟩ | hp
    · exact Nat.le_refl _
    · exact Nat.le_of_succ_le (ih (i + 1) p hp)

theorem plannedInvocations_at (i j : Nat) (gens : List ApplicationSetGenerator)
    (g : ApplicationSetGenerator) (h : gens[j]? = some g) :
    (((plannedInvocations i gens).filter fun ki => ki.2 == i + j).map Prod.fst) = kindsOf g := by
  induction gens generalizing i j with
  | nil => simp at h
  | cons g0 rest ih =>
    simp only [plannedInvocations, List.filter_append, List.map_append]
    cases j with
    | zero =>
      simp only [List.getElem?_cons_zero, Option.some.injEq] at h
      subst h
      have h2 : (plannedInvocations (i + 1) rest).filter (fun ki => ki.2 == i + 0) = [] := by
        rw [List.filter_eq_nil_iff]
        intro p hp
        have := plannedInvocations_index (i + 1) rest p hp
        simp only [Nat.add_zero, beq_iff_eq]
        omega
      rw [h2]
      simp [List.filter_map, Function.comp_def]
    | succ j =>
      simp only [List.getElem?_cons_succ] at h
      have h1 : ((kindsOf g0).map fun kind => (kind, i)).filter
          (fun ki => ki.2 == i + (j + 1)) = [] := by
        rw [List.filter_eq_nil_iff]
        intro p hp
        simp only [List.mem_map] at hp
        obtain ⟨k, _, rfl⟩ := hp
        simp only [beq_iff_eq]
        omega
      rw [h1]
      have := ih (i + 1) j h
      rw [show i + 1 + j = i + (j + 1) by omega] at this
      simpa using this

theorem recordedErrors_loop_mem (LG GG : GenerateApplications) (info : ApplicationSet)
    (i j : Nat) (gens : List ApplicationSetGenerator) (g : ApplicationSetGenerator)
    (err : GoError) (h : gens[j]? = some g)
    (he : (dispatch LG GG info (i + j) g).1.2 = some err) :
    (i + j, err) ∈ recordedErrors (loop LG GG info i gens) := by
  induction gens generalizing i j with
  | nil => simp at h
  | cons g0 rest ih =>
    simp only [loop, recordedErrors_append, List.mem_append]
    cases j with
    | zero =>
      simp only [List.getElem?_cons_zero, Option.some.injEq] at h
      subst h
      left
      rw [recordedErrors_iteration]
      simp only [Nat.add_zero] at he
      simp [he]
    | succ j =>
      simp only [List.getElem?_cons_succ] at h
      right
      have := ih (i + 1) j h (by rw [show i + 1 + j = i + (j + 1) by omega]; exact he)
      rw [show i + 1 + j = i + (j + 1) by omega] at this
      exact this

theorem Reconcile_ok (get : NamespacedName → Except GoError ApplicationSet)
    (LG GG : GenerateApplications) (req : Request) (info : ApplicationSet)
    (h : get req.NamespacedName = Except.ok info) :
    Reconcile get LG GG req = ⟨{}, none, loop LG GG info 0 info.Spec.Generators⟩ := by
  simp [Reconcile, h]

theorem Reconcile_error (get : NamespacedName → Except GoError ApplicationSet)
    (LG GG : GenerateApplications) (req : Request) (err : GoError)
    (h : get req.NamespacedName = Except.error err) :
    Reconcile get LG GG req = ⟨{}, IgnoreNotFound err, [Event.LogFetchError err]⟩ := by
  simp [Reconcile, h]

end controllers

namespace controllers

/-- C6, the stated form fails: a pass whose only generator returns an error still returns the
empty result, which asks for no retry, and a nil error; the generator's error is logged only. -/
theorem Reconcile_generator_error_unreported :
    Reconcile (getFleet [generators.listOnly]) (failsAt 0) succeeds fleetRequest =
      ⟨⟨false, 0⟩, none,
        [Event.GenerateApplications GeneratorKind.List 0,
          Event.LogGenerateError 0 (GoError.Other "generator failed")]⟩ := by
  decide

/-- C6, amended. `Reconcile` always returns the empty result, never a retry request.  It returns
a non-nil error exactly when fetching the ApplicationSet fails with an error that is not a
not-found error, and then returns that error.  When the fetch succeeds it returns a nil error
whatever the generators return. -/
theorem Reconcile_reports_fetch_errors_only (get : NamespacedName → Except GoError ApplicationSet)
    (LG GG : GenerateApplications) (req : Request) :
    (Reconcile get LG GG req).result = ⟨false, 0⟩ ∧
    ((Reconcile get LG GG req).err ≠ none ↔
      ∃ err, get req.NamespacedName = Except.error err ∧ ∀ msg, err ≠ GoError.NotFound msg) ∧
    (∀ err, get req.NamespacedName = Except.error err → (∀ msg, err ≠ GoError.NotFound msg) →
      (Reconcile get LG GG req).err = some err) ∧
    (∀ info, get req.NamespacedName = Except.ok info → (Reconcile get LG GG req).err = none) := by
  cases hget : get req.NamespacedName with
  | ok info =>
    rw [Reconcile_ok get LG GG req info hget]
    refine ⟨rfl, ⟨fun h => absurd rfl h, ?_⟩, ?_, fun _ _ => rfl⟩
    · rintro ⟨err, he, -⟩
      cases he
    · intro err he
      cases he
  | error err =>
    rw [Reconcile_error get LG GG req err hget]
    refine ⟨rfl, ?_, ?_, ?_⟩
    · constructor
      · intro h
        refine ⟨err, rfl, ?_⟩
        intro msg hmsg
        subst hmsg
        exact h rfl
      · rintro ⟨err2, he, hnf⟩
        cases he
        cases err <;> simp [IgnoreNotFound] at hnf ⊢
    · intro err2 he hnf
      cases he
      cases err <;> simp [IgnoreNotFound] at hnf ⊢
    · intro info he
      cases he

/-- C7, the stated form fails: a spec element with the Clusters kind alone populated makes the
pass call no generator, and an element with both the List and the Git kind populated makes it
call two. -/
theorem Reconcile_clusters_element_not_dispatched :
    (Reconcile (getFleet [generators.selectProd]) succeeds succeeds fleetRequest).events
      = [Event.LogDesiredApplications 0 []] ∧
    invocationsAt
      (Reconcile (getFleet [generators.selectProd]) succeeds succeeds fleetRequest).events 0 = [] ∧
    invocationsAt (Reconcile (getFleet [listAndGit]) succeeds succeeds fleetRequest).events 0
      = [GeneratorKind.List, GeneratorKind.Git] := by
  decide

/-- C7, amended. For a fetched ApplicationSet and a spec element that does not populate both the
List and the Git kind, `Reconcile` calls at most one generator for the element: the List
generator when List is populated, the Git generator when Git is populated, and none when neither
is, whether or not the Clusters kind is populated. -/
theorem Reconcile_dispatch_by_kind (get : NamespacedName → Except GoError ApplicationSet)
    (LG GG : GenerateApplications) (req : Request) (info : ApplicationSet)
    (hget : get req.NamespacedName = Except.ok info)
    (j : Nat) (g : ApplicationSetGenerator) (hj : info.Spec.Generators[j]? = some g)
    (hone : g.List = none ∨ g.Git = none) :
    (invocationsAt (Reconcile get LG GG req).events j).length ≤ 1 ∧
    (g.List ≠ none → invocationsAt (Reconcile get LG GG req).events j = [GeneratorKind.List]) ∧
    (g.Git ≠ none → invocationsAt (Reconcile get LG GG req).events j = [GeneratorKind.Git]) ∧
    (g.List = none → g.Git = none → invocationsAt (Reconcile get LG GG req).events j = []) := by
  have hat : invocationsAt (Reconcile get LG GG req).events j = kindsOf g := by
    rw [Reconcile_ok get LG GG req info hget]
    unfold invocationsAt
    simp only [invocations_loop]
    have := plannedInvocations_at 0 j info.Spec.Generators g hj
    simpa using this
  rw [hat]
  unfold kindsOf
  rcases hone with h | h
  · cases hg : g.Git <;> simp [h]
  · cases hl : g.List <;> simp [h]

theorem Reconcile_dispatch_by_kind_witness :
    getFleet [generators.listOnly, generators.selectProd, gitOnly] fleetRequest.NamespacedName
      = Except.ok (fleet [generators.listOnly, generators.selectProd, gitOnly]) ∧
    (fleet [generators.listOnly, generators.selectProd, gitOnly]).Spec.Generators[2]?
      = some gitOnly ∧
    (gitOnly.List = none ∨ gitOnly.Git = none) ∧
    invocationsAt
      (Reconcile (getFleet [generators.listOnly, generators.selectProd, gitOnly]) succeeds
        (failsAt 2) fleetRequest).events 2 = [GeneratorKind.Git] :=
  ⟨rfl, rfl, Or.inl rfl,
    (Reconcile_dispatch_by_kind (getFleet [generators.listOnly, generators.selectProd, gitOnly])
      succeeds (failsAt 2) fleetRequest
      (fleet [generators.listOnly, generators.selectProd, gitOnly]) rfl 2 gitOnly rfl
      (Or.inl rfl)).2.2.1 (by decide)⟩

/-- Failure isolation. For a fetched ApplicationSet, `Reconcile` visits every spec element in
list order: the generator calls of the pass are those planned from the spec list alone, so they
are the same under any other outcome of the generators, and for each element they are the calls
of its populated List and Git kinds.  The error an element's dispatch ends with is recorded for
that element: the Git generator's error when Git is populated, the List generator's error when
List alone is.  With three generators of which the second fails, all three are called and the
one error is recorded. -/
theorem Reconcile_failure_isolation (get : NamespacedName → Except GoError ApplicationSet)
    (LG GG : GenerateApplications) (req : Request) (info : ApplicationSet)
    (hget : get req.NamespacedName = Except.ok info) :
    invocations (Reconcile get LG GG req).events = plannedInvocations 0 info.Spec.Generators ∧
    (∀ LG2 GG2 : GenerateApplications,
      invocations (Reconcile get LG2 GG2 req).events
        = invocations (Reconcile get LG GG req).events) ∧
    (∀ j g, info.Spec.Generators[j]? = some g →
      invocationsAt (Reconcile get LG GG req).events j = kindsOf g) ∧
    (∀ j g err, info.Spec.Generators[j]? = some g →
      (dispatch LG GG info j g).1.2 = some err →
      (j, err) ∈ recordedErrors (Reconcile get LG GG req).events) ∧
    (∀ j g err, info.Spec.Generators[j]? = some g → g.List ≠ none → g.Git = none →
      (LG j g info).2 = some err →
      (j, err) ∈ recordedErrors (Reconcile get LG GG req).events) ∧
    (∀ j g err, info.Spec.Generators[j]? = some g → g.Git ≠ none →
      (GG j g info).2 = some err →
      (j, err) ∈ recordedErrors (Reconcile get LG GG req).events) ∧
    (invocations
        (Reconcile (getFleet [generators.listOnly, gitOnly, generators.listOnly]) succeeds
          (failsAt 1) fleetRequest).events
        = [(GeneratorKind.List, 0), (GeneratorKind.Git, 1), (GeneratorKind.List, 2)] ∧
      recordedErrors
        (Reconcile (getFleet [generators.listOnly, gitOnly, generators.listOnly]) succeeds
          (failsAt 1) fleetRequest).events
        = [(1, GoError.Other "generator failed")]) := by
  have hrec : ∀ j g err, info.Spec.Generators[j]? = some g →
      (dispatch LG GG info j g).1.2 = some err →
      (j, err) ∈ recordedErrors (Reconcile get LG GG req).events := by
    intro j g err hj he
    rw [Reconcile_ok get LG GG req info hget]
    have := recordedErrors_loop_mem LG GG info 0 j info.Spec.Generators g err hj
      (by simpa using he)
    simpa using this
  refine ⟨?_, ?_, ?_, hrec, ?_, ?_, by decide, by decide⟩
  · rw [Reconcile_ok get LG GG req info hget]
    exact invocations_loop LG GG info 0 _
  · intro LG2 GG2
    rw [Reconcile_ok get LG GG req info hget, Reconcile_ok get LG2 GG2 req info hget]
    simp only [invocations_loop]
  · intro j g hj
    rw [Reconcile_ok get LG GG req info hget]
    unfold invocationsAt
    simp only [invocations_loop]
    have := plannedInvocations_at 0 j info.Spec.Generators g hj
    simpa using this
  · intro j g err hj hl hg he
    apply hrec j g err hj
    cases hl2 : g.List with
    | none => exact absurd hl2 hl
    | some l => simp [dispatch, hl2, hg, he]
  · intro j g err hj hg he
    apply hrec j g err hj
    cases hg2 : g.Git with
    | none => exact absurd hg2 hg
    | some l => simp [dispatch, hg2, he]

theorem Reconcile_failure_isolation_witness :
    getFleet [generators.listOnly, gitOnly, generators.listOnly] fleetRequest.NamespacedName
      = Except.ok (fleet [generators.listOnly, gitOnly, generators.listOnly]) ∧
    invocations
      (Reconcile (getFleet [generators.listOnly, gitOnly, generators.listOnly]) succeeds
        (failsAt 1) fleetRequest).events
      = plannedInvocations 0
          (fleet [generators.listOnly, gitOnly, generators.listOnly]).Spec.Generators :=
  ⟨rfl,
    (Reconcile_failure_isolation (getFleet [generators.listOnly, gitOnly, generators.listOnly])
      succeeds (failsAt 1) fleetRequest
      (fleet [generators.listOnly, gitOnly, generators.listOnly]) rfl).1⟩

/-- C8. A generator error that is not recorded: for a spec element with both the List and the Git
kind populated, a List generator that fails and a Git generator that succeeds, the pass calls
both generators, logs the Applications of the Git generator and records no error, although the
List generator returned one.  The same pass with the Git kind alone failing records its error. -/
theorem Reconcile_list_error_overwritten :
    (failsAt 0 0 listAndGit (fleet [listAndGit])).2 = some (GoError.Other "generator failed") ∧
    (Reconcile (getFleet [listAndGit]) (failsAt 0) succeeds fleetRequest).events
      = [Event.GenerateApplications GeneratorKind.List 0,
          Event.GenerateApplications GeneratorKind.Git 0,
          Event.LogDesiredApplications 0 []] ∧
    recordedErrors (Reconcile (getFleet [listAndGit]) (failsAt 0) succeeds fleetRequest).events
      = [] ∧
    recordedErrors (Reconcile (getFleet [listAndGit]) succeeds (failsAt 0) fleetRequest).events
      = [(0, GoError.Other "generator failed")] := by
  decide

/-- C9. When fetching the ApplicationSet fails, `Reconcile` calls no generator and returns the
empty result; its error is nil when the fetch error is a not-found error and is the fetch error
itself otherwise. -/
theorem Reconcile_fetch_failure (get : NamespacedName → Except GoError ApplicationSet)
    (LG GG : GenerateApplications) (req : Request) (err : GoError)
    (hget : get req.NamespacedName = Except.error err) :
    invocations (Reconcile get LG GG req).events = [] ∧
    (Reconcile get LG GG req).result = ⟨false, 0⟩ ∧
    ((∃ msg, err = GoError.NotFound msg) → (Reconcile get LG GG req).err = none) ∧
    ((∀ msg, err ≠ GoError.NotFound msg) → (Reconcile get LG GG req).err = some err) := by
  rw [Reconcile_error get LG GG req err hget]
  refine ⟨rfl, rfl, ?_, ?_⟩
  · rintro ⟨msg, rfl⟩
    rfl
  · intro hnf
    cases err <;> simp [IgnoreNotFound] at hnf ⊢

theorem Reconcile_fetch_failure_witness :
    getFails (GoError.NotFound "applicationsets fleet not found") fleetRequest.NamespacedName
      = Except.error (GoError.NotFound "applicationsets fleet not found") ∧
    invocations
      (Reconcile (getFails (GoError.NotFound "applicationsets fleet not found")) (failsAt 0)
        succeeds fleetRequest).events = [] ∧
    (Reconcile (getFails (GoError.NotFound "applicationsets fleet not found")) (failsAt 0)
      succeeds fleetRequest).err = none :=
  ⟨rfl,
    (Reconcile_fetch_failure (getFails (GoError.NotFound "applicationsets fleet not found"))
      (failsAt 0) succeeds fleetRequest (GoError.NotFound "applicationsets fleet not found")
      rfl).1,
    (Reconcile_fetch_failure (getFails (GoError.NotFound "applicationsets fleet not found"))
      (failsAt 0) succeeds fleetRequest (GoError.NotFound "applicationsets fleet not found")
      rfl).2.2.1 ⟨_, rfl⟩⟩

end controllers
